import Mathlib

/-!
# Verification of the `dvhb_hybrid` record-access engine

Shallow embedding of `dvhb_hybrid/amodels.py`: the `Model` active-record
base (query construction, CRUD, cached counts, JSON-merge updates,
validation) and the many-to-many relationship resolver, together with the
`AppModels` registry binding.

Python scalar values that flow through the engine are modelled by `PyVal`,
rows (Python dicts / database rows) by association lists, SQL predicate
clause elements by `SqlPred`, JSON documents (for `update_json`) by `Json`,
and the database / cache collaborators by explicit state values.
-/

/-- Python scalar values as they occur in the engine: `None`, ints,
strings, UUIDs and booleans. -/
inductive PyVal : Type where
  | none : PyVal
  | int (n : Int) : PyVal
  | str (s : String) : PyVal
  | uuid (u : Nat) : PyVal
  | bool (b : Bool) : PyVal
deriving Repr, DecidableEq

/-- A row / Python dict: an association list from column name to value. -/
abbrev Row : Type := List (String × PyVal)

/-- `d.get(k)`: first binding of `k` in the association list, if any. -/
def aget (r : Row) (k : String) : Option PyVal :=
  match r with
  | [] => Option.none
  | (k', v) :: t => if k' = k then Option.some v else aget t k

/-- `d[k] = v`: replace the first binding of `k`, or append a new one. -/
def aset (r : Row) (k : String) (v : PyVal) : Row :=
  match r with
  | [] => [(k, v)]
  | (k', v') :: t => if k' = k then (k, v) :: t else (k', v') :: aset t k v

/-- Errors the engine can raise. `notFound` is `exceptions.NotFound`;
`valueError`, `attributeError`, `keyError` and `typeError` are the builtin
Python exception classes (per the spec's §7 taxonomy these are distinct
classes, none a subclass of another). -/
inductive ModelError : Type where
  | notFound : ModelError
  | valueError (msg : String) : ModelError
  | attributeError (msg : String) : ModelError
  | keyError (msg : String) : ModelError
  | typeError (msg : String) : ModelError
  | assertionError (msg : String) : ModelError
deriving Repr, DecidableEq

/-- Decidable equality for `Except` results, used to evaluate the engine
on concrete inputs. -/
def exceptDecEq {ε α : Type} [DecidableEq ε] [DecidableEq α] :
    (a b : Except ε α) → Decidable (a = b)
  | .error a, .error b =>
    if h : a = b then .isTrue (by rw [h])
    else .isFalse (fun he => h (by injection he))
  | .error _, .ok _ => .isFalse (fun he => Except.noConfusion he)
  | .ok _, .error _ => .isFalse (fun he => Except.noConfusion he)
  | .ok a, .ok b =>
    if h : a = b then .isTrue (by rw [h])
    else .isFalse (fun he => h (by injection he))

instance {ε α : Type} [DecidableEq ε] [DecidableEq α] :
    DecidableEq (Except ε α) := exceptDecEq

/-- The class-level data of a record type (`Model` subclass): table name,
column names, and the declarative attributes the engine consults.
`fields_one = []` / `fields_list = []` model the unset (`None` / empty
tuple) Python defaults, which are falsy exactly like the empty list. -/
structure ModelT : Type where
  table_name : String
  columns : List String
  primary_key : String := "id"
  fields_permanent : List String := []
  fields_readonly : List String := []
  fields_list : List String := []
  fields_one : List String := []
  app : Option String := Option.none
deriving Repr, DecidableEq

/-- SQL predicate clause elements built by the engine. -/
inductive SqlPred : Type where
  | eq (col : String) (v : PyVal) : SqlPred
  | inList (col : String) (vs : List PyVal) : SqlPred
  | and (p q : SqlPred) : SqlPred
deriving Repr, DecidableEq

/-- Evaluation of a predicate on a row (the database's filter semantics). -/
def SqlPred.eval (p : SqlPred) (r : Row) : Bool :=
  match p with
  | .eq col v => aget r col == Option.some v
  | .inList col vs => ((aget r col).map (fun w => vs.contains w)).getD false
  | .and p q => p.eval r && q.eval r

/-- A positional argument to a query method: either a bare Python value or
a predicate clause element. -/
inductive QArg : Type where
  | val (v : PyVal) : QArg
  | clause (p : SqlPred) : QArg
deriving Repr, DecidableEq

/-- `isinstance(x, (int, str, uuid.UUID))`, the test `Model._where` applies
to its first argument. -/
def isKeyType : PyVal → Bool
  | .int _ => true
  | .str _ => true
  | .uuid _ => true
  | _ => false

example : aset [("a", .int 1), ("b", .int 2)] "b" (.int 3)
    = [("a", .int 1), ("b", .int 3)] := by decide

/-- `Model._where(args)` (amodels.py:155-163): empty argument list raises
`ValueError`; a first argument of key type (int/str/UUID) is replaced by
the equality predicate `table.c[primary_key] == first`; the arguments are
then combined left-to-right with `reduce(and_, args)`.  A bare non-clause
value in any other position (or a non-key-typed bare first value) would
make SQLAlchemy's clause machinery fail; this is modelled as `typeError`. -/
def QArg.toClause : QArg → Except ModelError SqlPred
  | .clause p => pure p
  | .val _ => .error (.typeError "not a clause element")

def clauseList : List QArg → Except ModelError (List SqlPred)
  | [] => .ok []
  | a :: t =>
    match QArg.toClause a, clauseList t with
    | .ok p, .ok ps => .ok (p :: ps)
    | .error e, _ => .error e
    | _, .error e => .error e

def modelWhere (M : ModelT) (args : List QArg) : Except ModelError SqlPred :=
  match args with
  | [] => .error (.valueError "Where where?")
  | first :: tail =>
    let headE : Except ModelError SqlPred :=
      match first with
      | .val v =>
        if isKeyType v then .ok (SqlPred.eq M.primary_key v)
        else .error (.typeError "not a clause element")
      | .clause p => .ok p
    match headE, clauseList tail with
    | .ok h, .ok rest => .ok (rest.foldl SqlPred.and h)
    | .error e, _ => .error e
    | .ok _, .error e => .error e

/-- The projection `Model._get_one` selects (amodels.py:182-192): the
caller's `fields` when given and non-empty, else the type's `fields_one`
when non-empty, else all columns (`table.select()`). -/
def effectiveFieldsOne (M : ModelT) (fields : Option (List String)) : List String :=
  let f := fields.getD []
  if f ≠ [] then f
  else if M.fields_one ≠ [] then M.fields_one
  else M.columns

/-- Projection of a database row onto selected columns, in selection
order (what a `SELECT c1, c2, ...` row contains). -/
def projectRow (cols : List String) (r : Row) : Row :=
  cols.map (fun c => (c, (aget r c).getD PyVal.none))

/-- `Model._get_one` (amodels.py:181-195): builds the WHERE clause via
`_where`, projects, executes and returns the first matching row or the
absent value. -/
def modelGetOneRaw (M : ModelT) (tbl : List Row) (args : List QArg)
    (fields : Option (List String)) : Except ModelError (Option Row) :=
  match modelWhere M args with
  | .error e => .error e
  | .ok w =>
    .ok (((tbl.filter (fun r => w.eval r)).head?).map
      (projectRow (effectiveFieldsOne M fields)))

/-- Python truthiness of a fetched row (`if r:` / `if saved:`): an absent
result and a zero-column row are falsy. -/
def rowTruthy (r : Option Row) : Bool :=
  match r with
  | Option.none => false
  | Option.some row => row ≠ []

/-- `Model.get_one` (amodels.py:197-207): returns the record built from
the fetched row when one was found, raises `NotFound` when none was and
`silent` is false, and returns the absent value (`None`) when none was
found and `silent` is true. -/
def modelGetOne (M : ModelT) (tbl : List Row) (args : List QArg)
    (fields : Option (List String)) (silent : Bool) :
    Except ModelError (Option Row) :=
  match modelGetOneRaw M tbl args fields with
  | .error e => .error e
  | .ok r =>
    if rowTruthy r then .ok r
    else if !silent then .error .notFound
    else .ok Option.none

example :
    modelWhere ⟨"user", ["id", "name"], "id", [], [], [], [], Option.none⟩
      [QArg.val (.int 5), QArg.clause (.eq "name" (.str "bob"))]
    = Except.ok (SqlPred.and (.eq "id" (.int 5)) (.eq "name" (.str "bob"))) := by
  decide

example :
    modelGetOne ⟨"user", ["id", "name"], "id", [], [], [], [], Option.none⟩
      [[("id", PyVal.int 1), ("name", PyVal.str "a")]]
      [QArg.val (.int 5)] Option.none false
    = Except.error .notFound := by decide

example :
    modelGetOne ⟨"user", ["id", "name"], "id", [], [], [], [], Option.none⟩
      [[("id", PyVal.int 1), ("name", PyVal.str "a")]]
      [QArg.val (.int 1)] Option.none true
    = Except.ok (Option.some [("id", PyVal.int 1), ("name", PyVal.str "a")]) := by
  decide

theorem clauseList_map (ps : List SqlPred) :
    clauseList (ps.map QArg.clause) = Except.ok ps := by
  induction ps with
  | nil => rfl
  | cons p t ih => simp [clauseList, QArg.toClause, ih, pure, Except.pure]

theorem modelWhere_key (M : ModelT) (v : PyVal) (ps : List SqlPred)
    (hv : isKeyType v = true) :
    modelWhere M (QArg.val v :: ps.map QArg.clause)
      = Except.ok (ps.foldl SqlPred.and (SqlPred.eq M.primary_key v)) := by
  simp [modelWhere, hv, clauseList_map]

theorem projectRow_ne_nil (cols : List String) (r : Row) (h : cols ≠ []) :
    projectRow cols r ≠ [] := by
  cases cols with
  | nil => exact absurd rfl h
  | cons c t => simp [projectRow]

/-- C1: a bare key-typed (int/str/UUID) first argument to `get_one` is
converted to an equality predicate on the primary-key column and all
predicates are combined with logical AND; when no row matches, `get_one`
raises `NotFound` if `silent` is false and returns the absent value if
`silent` is true; when a row matches, it returns exactly one record, built
from that (first matching) row. -/
theorem get_one_spec (M : ModelT) (tbl : List Row) (v : PyVal)
    (ps : List SqlPred) (fields : Option (List String))
    (hv : isKeyType v = true)
    (hcols : effectiveFieldsOne M fields ≠ []) :
    modelWhere M (QArg.val v :: ps.map QArg.clause)
      = Except.ok (ps.foldl SqlPred.and (SqlPred.eq M.primary_key v)) ∧
    ((∀ r ∈ tbl,
        (ps.foldl SqlPred.and (SqlPred.eq M.primary_key v)).eval r = false) →
      modelGetOne M tbl (QArg.val v :: ps.map QArg.clause) fields false
          = Except.error ModelError.notFound ∧
      modelGetOne M tbl (QArg.val v :: ps.map QArg.clause) fields true
          = Except.ok Option.none) ∧
    (∀ r₀, (tbl.filter (fun r =>
        (ps.foldl SqlPred.and (SqlPred.eq M.primary_key v)).eval r)).head?
          = Option.some r₀ →
      ∀ silent, modelGetOne M tbl (QArg.val v :: ps.map QArg.clause) fields silent
          = Except.ok (Option.some (projectRow (effectiveFieldsOne M fields) r₀))) := by
  have hw := modelWhere_key M v ps hv
  have hraw : modelGetOneRaw M tbl (QArg.val v :: ps.map QArg.clause) fields
      = Except.ok (((tbl.filter (fun r =>
          (ps.foldl SqlPred.and (SqlPred.eq M.primary_key v)).eval r)).head?).map
        (projectRow (effectiveFieldsOne M fields))) := by
    simp only [modelGetOneRaw, hw]
  refine ⟨hw, ?_, ?_⟩
  · intro hnone
    have hfil : tbl.filter (fun r =>
        (ps.foldl SqlPred.and (SqlPred.eq M.primary_key v)).eval r) = [] := by
      apply List.filter_eq_nil_iff.mpr
      intro a ha
      simp [hnone a ha]
    rw [hfil] at hraw
    constructor <;> simp only [modelGetOne, hraw] <;> rfl
  · intro r₀ hhead silent
    rw [hhead] at hraw
    simp only [modelGetOne, hraw, Option.map_some']
    have : rowTruthy (Option.some (projectRow (effectiveFieldsOne M fields) r₀))
        = true := by
      simp [rowTruthy, projectRow_ne_nil _ r₀ hcols]
    rw [this]
    simp

/-- A small concrete record type used to instantiate theorems. -/
def demoM : ModelT :=
  { table_name := "user", columns := ["id", "name"] }

/-- A concrete row of `demoM`'s table. -/
def demoRow : Row := [("id", PyVal.int 1), ("name", PyVal.str "alice")]

theorem get_one_spec_witness :
    modelWhere demoM (QArg.val (PyVal.int 1) :: List.map QArg.clause [])
      = Except.ok (List.foldl SqlPred.and
          (SqlPred.eq demoM.primary_key (PyVal.int 1)) []) ∧
    ((∀ r ∈ [demoRow],
        (List.foldl SqlPred.and
          (SqlPred.eq demoM.primary_key (PyVal.int 1)) []).eval r = false) →
      modelGetOne demoM [demoRow] (QArg.val (PyVal.int 1) :: List.map QArg.clause [])
          Option.none false = Except.error ModelError.notFound ∧
      modelGetOne demoM [demoRow] (QArg.val (PyVal.int 1) :: List.map QArg.clause [])
          Option.none true = Except.ok Option.none) ∧
    (∀ r₀, (([demoRow]).filter (fun r =>
        (List.foldl SqlPred.and
          (SqlPred.eq demoM.primary_key (PyVal.int 1)) []).eval r)).head?
          = Option.some r₀ →
      ∀ silent,
        modelGetOne demoM [demoRow] (QArg.val (PyVal.int 1) :: List.map QArg.clause [])
          Option.none silent
        = Except.ok (Option.some (projectRow (effectiveFieldsOne demoM Option.none) r₀))) :=
  get_one_spec demoM [demoRow] (PyVal.int 1) [] Option.none (by decide) (by decide)

/-- A keyword-filter value in `get_dict`: a Python scalar or a
list/tuple. -/
inductive KVal : Type where
  | scalar (v : PyVal) : KVal
  | seq (vs : List PyVal) : KVal
deriving Repr, DecidableEq

/-- `kwargs[k] = v` on a keyword dict. -/
def ksetKV (kw : List (String × KVal)) (k : String) (v : KVal) :
    List (String × KVal) :=
  match kw with
  | [] => [(k, v)]
  | (k', v') :: t => if k' = k then (k, v) :: t else (k', v') :: ksetKV t k v

/-- The keyword-filter loop of `Model.get_dict` (amodels.py:272-277): a
scalar value contributes an equality predicate, a non-empty list/tuple a
membership predicate, and an empty list/tuple nothing. -/
def kwargPreds : List (String × KVal) → List SqlPred
  | [] => []
  | (k, KVal.scalar v) :: t => SqlPred.eq k v :: kwargPreds t
  | (k, KVal.seq vs) :: t =>
    if vs ≠ [] then SqlPred.inList k vs :: kwargPreds t else kwargPreds t

/-- A positional argument to `get_dict`: a bare Python value or a clause
element. -/
inductive DictArg : Type where
  | bare (v : KVal) : DictArg
  | clause (p : SqlPred) : DictArg
deriving Repr, DecidableEq

/-- `isinstance(where_and[0], (list, tuple, str, int))`
(amodels.py:269). -/
def dictArgConvertible : KVal → Bool
  | .seq _ => true
  | .scalar (.str _) => true
  | .scalar (.int _) => true
  | .scalar _ => false

/-- A bare value left in predicate position makes the clause machinery
fail; modelled as `typeError` as in `QArg.toClause`. -/
def DictArg.toClause : DictArg → Except ModelError SqlPred
  | .clause p => .ok p
  | .bare _ => .error (.typeError "not a clause element")

def dictClauseList : List DictArg → Except ModelError (List SqlPred)
  | [] => .ok []
  | a :: t =>
    match DictArg.toClause a, dictClauseList t with
    | .ok p, .ok ps => .ok (p :: ps)
    | .error e, _ => .error e
    | _, .error e => .error e

/-- `reduce(and_, l)` on a non-empty predicate list. -/
def reduceAnd : List SqlPred → Option SqlPred
  | [] => Option.none
  | p :: t => Option.some (t.foldl SqlPred.and p)

/-- The projection `Model.get_list` selects (amodels.py:230-238): the
caller's `fields` when given and non-empty, else the type's `fields_list`
when non-empty, else all columns. -/
def effectiveFieldsList (M : ModelT) (fields : Option (List String)) :
    List String :=
  let f := fields.getD []
  if f ≠ [] then f
  else if M.fields_list ≠ [] then M.fields_list
  else M.columns

/-- `Model.get_list` (amodels.py:224-261) as exercised by `get_dict`: an
optional combined WHERE clause and a projection; rows are returned in the
table's retrieval order.  `offset`, `limit`, `sort` and `select_from` are
passed as `None` by every call the claims cover and are omitted. -/
def modelGetList (M : ModelT) (tbl : List Row) (whereOpt : Option SqlPred)
    (fields : Option (List String)) : List Row :=
  let rows := match whereOpt with
    | Option.some w => tbl.filter (fun r => w.eval r)
    | Option.none => tbl
  rows.map (projectRow (effectiveFieldsList M fields))

/-- The leading-positional shorthand of `Model.get_dict`
(amodels.py:267-271): a first positional argument that is a
list/tuple/str/int is moved into the keyword filters under the primary
key. -/
def dictShortcut (M : ModelT) (where_and : List DictArg)
    (kwargs : List (String × KVal)) :
    List DictArg × List (String × KVal) :=
  match where_and with
  | DictArg.bare v :: rest =>
    if dictArgConvertible v then (rest, ksetKV kwargs M.primary_key v)
    else (where_and, kwargs)
  | _ => (where_and, kwargs)

/-- `d[k] = v` on the primary-key-to-record result dict. -/
def pydset (d : List (PyVal × Row)) (k : PyVal) (v : Row) :
    List (PyVal × Row) :=
  match d with
  | [] => [(k, v)]
  | (k', v') :: t => if k' = k then (k, v) :: t else (k', v') :: pydset t k v

/-- `Model.get_dict` (amodels.py:263-291).  The caller's `fields` argument
is modelled as an optional reference (index) into a store of list objects,
so that the in-place `fields.append(primary_key)` mutation is observable.
Steps, as in the source: a leading bare list/tuple/str/int positional
value is moved into the keyword filters under the primary key; keyword
filters are turned into predicates; explicit predicates are appended; the
conjunction (if any) is passed to `get_list`; a non-empty `fields` list
lacking the primary key gets the primary key appended in place; the rows
come back keyed by primary key, later rows overwriting earlier ones. -/
def modelGetDict (M : ModelT) (tbl : List Row) (where_and : List DictArg)
    (kwargs : List (String × KVal)) (store : List (List String))
    (fields : Option Nat) :
    Except ModelError (List (PyVal × Row) × List (List String)) :=
  let p1 := dictShortcut M where_and kwargs
  match dictClauseList p1.1 with
  | .error e => .error e
  | .ok ws =>
    let whereL := kwargPreds p1.2 ++ ws
    let sf : List (List String) × Option (List String) :=
      match fields with
      | Option.none => (store, Option.none)
      | Option.some r =>
        let l := store.getD r []
        if l = [] then (store, Option.none)
        else if M.primary_key ∈ l then (store, Option.some l)
        else (store.set r (l ++ [M.primary_key]),
              Option.some (l ++ [M.primary_key]))
    let rows := modelGetList M tbl (reduceAnd whereL) sf.2
    .ok (rows.foldl
      (fun d row => pydset d ((aget row M.primary_key).getD PyVal.none) row)
      [], sf.1)

theorem kwargPreds_append (xs ys : List (String × KVal)) :
    kwargPreds (xs ++ ys) = kwargPreds xs ++ kwargPreds ys := by
  induction xs with
  | nil => simp [kwargPreds]
  | cons h t ih =>
    obtain ⟨k, kv⟩ := h
    cases kv with
    | scalar v => simp [kwargPreds, ih]
    | seq vs => by_cases hv : vs = [] <;> simp [kwargPreds, hv, ih]

/-- Whether `get_dict`'s first positional argument triggers the
shorthand conversion into the keyword filters. -/
def headConvertibleBare : List DictArg → Bool
  | DictArg.bare v :: _ => dictArgConvertible v
  | _ => false

theorem dictShortcut_id (M : ModelT) (wa : List DictArg)
    (kw : List (String × KVal)) (h : headConvertibleBare wa = false) :
    dictShortcut M wa kw = (wa, kw) := by
  match wa with
  | [] => rfl
  | DictArg.bare v :: rest =>
    simp only [headConvertibleBare] at h
    simp [dictShortcut, h]
  | DictArg.clause p :: rest => rfl

/-- C5: in `get_dict`, a keyword filter with a scalar value becomes an
equality predicate, a non-empty sequence value becomes a
membership-in-set predicate, and an empty sequence value contributes no
predicate at all: the whole call's result is unchanged by deleting the
empty-sequence filter, so it does not restrict the result. -/
theorem get_dict_kwarg_filters_spec (k : String) (v : PyVal)
    (vs : List PyVal) (hvs : vs ≠ []) :
    (∀ t, kwargPreds ((k, KVal.scalar v) :: t) = SqlPred.eq k v :: kwargPreds t) ∧
    (∀ r, (SqlPred.eq k v).eval r = (aget r k == Option.some v)) ∧
    (∀ t, kwargPreds ((k, KVal.seq vs) :: t)
        = SqlPred.inList k vs :: kwargPreds t) ∧
    (∀ r w, aget r k = Option.some w →
        (SqlPred.inList k vs).eval r = vs.contains w) ∧
    (∀ (M : ModelT) (tbl : List Row) (wa : List DictArg)
        (xs ys : List (String × KVal)) (store : List (List String))
        (fields : Option Nat),
      headConvertibleBare wa = false →
      modelGetDict M tbl wa (xs ++ (k, KVal.seq []) :: ys) store fields
        = modelGetDict M tbl wa (xs ++ ys) store fields) := by
  refine ⟨fun t => by simp [kwargPreds], fun r => rfl,
    fun t => by simp [kwargPreds, hvs], fun r w hw => by simp [SqlPred.eval, hw],
    ?_⟩
  intro M tbl wa xs ys store fields hwa
  have hkw : kwargPreds (xs ++ (k, KVal.seq []) :: ys)
      = kwargPreds (xs ++ ys) := by
    simp [kwargPreds_append, kwargPreds]
  simp only [modelGetDict, dictShortcut_id M wa _ hwa, hkw]

theorem get_dict_kwarg_filters_spec_witness :
    (∀ t, kwargPreds (("name", KVal.scalar (PyVal.str "x")) :: t)
        = SqlPred.eq "name" (PyVal.str "x") :: kwargPreds t) ∧
    (∀ r, (SqlPred.eq "name" (PyVal.str "x")).eval r
        = (aget r "name" == Option.some (PyVal.str "x"))) ∧
    (∀ t, kwargPreds (("name", KVal.seq [PyVal.int 1]) :: t)
        = SqlPred.inList "name" [PyVal.int 1] :: kwargPreds t) ∧
    (∀ r w, aget r "name" = Option.some w →
        (SqlPred.inList "name" [PyVal.int 1]).eval r
          = ([PyVal.int 1]).contains w) ∧
    (∀ (M : ModelT) (tbl : List Row) (wa : List DictArg)
        (xs ys : List (String × KVal)) (store : List (List String))
        (fields : Option Nat),
      headConvertibleBare wa = false →
      modelGetDict M tbl wa (xs ++ ("name", KVal.seq []) :: ys) store fields
        = modelGetDict M tbl wa (xs ++ ys) store fields) :=
  get_dict_kwarg_filters_spec "name" (PyVal.str "x") [PyVal.int 1] (by decide)

/-- The state of the caller's `fields` list objects after a `get_dict`
call: the store component of a successful result. -/
def storeResult
    (e : Except ModelError (List (PyVal × Row) × List (List String))) :
    Option (List (List String)) :=
  match e with
  | .ok (_, s) => Option.some s
  | .error _ => Option.none

/-- C10: `get_dict` with a caller-supplied `fields` list (a reference into
the store of list objects) appends the primary-key name to that same list
object in place when the list is non-empty and lacks the primary key; a
list already containing the primary key, an empty list, and an absent
`fields` argument leave the store untouched.  Other list objects in the
store are never modified. -/
theorem get_dict_fields_mutation_spec (M : ModelT) (tbl : List Row)
    (wa : List DictArg) (kwargs : List (String × KVal))
    (store : List (List String)) (r : Nat) (ws : List SqlPred)
    (hr : r < store.length)
    (h1 : dictClauseList (dictShortcut M wa kwargs).1 = Except.ok ws) :
    ((store.get ⟨r, hr⟩ ≠ [] ∧ M.primary_key ∉ store.get ⟨r, hr⟩) →
      storeResult (modelGetDict M tbl wa kwargs store (Option.some r))
        = Option.some (store.set r (store.get ⟨r, hr⟩ ++ [M.primary_key]))) ∧
    (M.primary_key ∈ store.get ⟨r, hr⟩ →
      storeResult (modelGetDict M tbl wa kwargs store (Option.some r))
        = Option.some store) ∧
    (store.get ⟨r, hr⟩ = [] →
      storeResult (modelGetDict M tbl wa kwargs store (Option.some r))
        = Option.some store) ∧
    (storeResult (modelGetDict M tbl wa kwargs store Option.none)
        = Option.some store) ∧
    (∀ i, i ≠ r →
      (store.set r (store.get ⟨r, hr⟩ ++ [M.primary_key])).get? i
        = store.get? i) := by
  have hgd : store.getD r [] = store.get ⟨r, hr⟩ := by
    rw [List.getD_eq_getElem store [] hr]
    simp
  have hge : store.get ⟨r, hr⟩ = store[r] := List.get_eq_getElem store ⟨r, hr⟩
  refine ⟨?_, ?_, ?_, ?_, ?_⟩
  · rintro ⟨hne, hnm⟩
    rw [hge] at hne hnm
    simp only [modelGetDict, h1, hgd, hge]
    simp [storeResult, hne, hnm]
  · intro hm
    rw [hge] at hm
    by_cases hne : store[r] = []
    · simp only [modelGetDict, h1, hgd, hge]
      simp [storeResult, hne]
    · simp only [modelGetDict, h1, hgd, hge]
      simp [storeResult, hne, hm]
  · intro hne
    rw [hge] at hne
    simp only [modelGetDict, h1, hgd, hge]
    simp [storeResult, hne]
  · simp only [modelGetDict, h1]
    simp [storeResult]
  · intro i hi
    exact List.get?_set_ne _ _ (fun h => hi h.symm)

theorem get_dict_fields_mutation_spec_witness :
    ((([["name"]] : List (List String)).get ⟨0, Nat.zero_lt_one⟩ ≠ [] ∧
      demoM.primary_key ∉ ([["name"]] : List (List String)).get ⟨0, Nat.zero_lt_one⟩) →
      storeResult (modelGetDict demoM [] [] [] [["name"]] (Option.some 0))
        = Option.some (([["name"]] : List (List String)).set 0
            ((([["name"]] : List (List String)).get ⟨0, Nat.zero_lt_one⟩)
              ++ [demoM.primary_key]))) ∧
    (demoM.primary_key ∈ ([["name"]] : List (List String)).get ⟨0, Nat.zero_lt_one⟩ →
      storeResult (modelGetDict demoM [] [] [] [["name"]] (Option.some 0))
        = Option.some [["name"]]) ∧
    (([["name"]] : List (List String)).get ⟨0, Nat.zero_lt_one⟩ = [] →
      storeResult (modelGetDict demoM [] [] [] [["name"]] (Option.some 0))
        = Option.some [["name"]]) ∧
    (storeResult (modelGetDict demoM [] [] [] [["name"]] Option.none)
        = Option.some [["name"]]) ∧
    (∀ i, i ≠ 0 →
      (([["name"]] : List (List String)).set 0
          ((([["name"]] : List (List String)).get ⟨0, Nat.zero_lt_one⟩)
            ++ [demoM.primary_key])).get? i
        = ([["name"]] : List (List String)).get? i) :=
  get_dict_fields_mutation_spec demoM [] [] [] [["name"]] 0 []
    Nat.zero_lt_one (by decide)

/-- The database table state for write operations: the stored rows and
the sequence value behind the auto-generated primary key. -/
structure DbState : Type where
  rows : List Row
  nextPk : Int
deriving Repr, DecidableEq

/-- `connection.scalar(table.insert().returning(pk_field).values(vals))`:
the database stores the row and returns its primary key, generating a
fresh one when `vals` does not carry it. -/
def insertReturning (M : ModelT) (s : DbState) (vals : Row) : PyVal × DbState :=
  match aget vals M.primary_key with
  | Option.some v => (v, ⟨s.rows ++ [vals], s.nextPk⟩)
  | Option.none =>
    (PyVal.int s.nextPk,
     ⟨s.rows ++ [aset vals M.primary_key (PyVal.int s.nextPk)], s.nextPk + 1⟩)

/-- Application of an UPDATE's `values` dict to one stored row: each
listed column is overwritten, every other column is untouched. -/
def rowUpdate (r : Row) (values : Row) : Row :=
  values.foldl (fun acc kv => aset acc kv.1 kv.2) r

/-- The `values` dict `Model.save` passes to UPDATE (amodels.py:407-415):
with a (non-empty) `fields` argument, the instance's fields restricted to
`fields` chained with `fields_permanent`; else, with `fields_readonly`
declared, the instance's fields except the read-only ones; else the whole
instance. -/
def saveValues (M : ModelT) (inst : Row) (fields : Option (List String)) :
    Row :=
  let f := fields.getD []
  if f ≠ [] then
    inst.filter (fun kv => (f ++ M.fields_permanent).contains kv.1)
  else if M.fields_readonly ≠ [] then
    inst.filter (fun kv => !(M.fields_readonly.contains kv.1))
  else inst

/-- The set (list) of column names `Model.save` updates on the UPDATE
path: the keys of the `values` dict. -/
def saveUpdateColumns (M : ModelT) (inst : Row)
    (fields : Option (List String)) : List String :=
  (saveValues M inst fields).map Prod.fst

/-- The column set claim C2 asserts `save` updates, taken verbatim from
the claim's words (for comparison with `saveUpdateColumns`): the given
`fields` plus `fields_permanent`; else all instance fields outside
`fields_readonly`; else all instance fields. -/
def saveUpdateColumnsClaimed (M : ModelT) (inst : Row)
    (fields : Option (List String)) : List String :=
  match fields with
  | Option.some fs => fs ++ M.fields_permanent
  | Option.none =>
    if M.fields_readonly ≠ [] then
      (inst.map Prod.fst).filter (fun k => !(M.fields_readonly.contains k))
    else inst.map Prod.fst

/-- `Model.save` (amodels.py:394-424).  When the instance lacks its
primary key, or carries one with no backing row, the row is inserted;
otherwise the backing row is updated with the `saveValues` dict and the
returned key is asserted equal to the instance's.  Returns the primary
key, the (possibly extended) instance, and the new database state. -/
def modelSave (M : ModelT) (s : DbState) (inst : Row)
    (fields : Option (List String)) :
    Except ModelError (PyVal × Row × DbState) :=
  match (match aget inst M.primary_key with
         | Option.some pkv =>
           modelGetOneRaw M s.rows [QArg.val pkv] Option.none
         | Option.none => Except.ok Option.none) with
  | .error e => .error e
  | .ok saved =>
    if rowTruthy saved then
      let instPk := (aget inst M.primary_key).getD PyVal.none
      let values := saveValues M inst fields
      let newRows := s.rows.map (fun r =>
        if aget r M.primary_key == Option.some instPk then rowUpdate r values
        else r)
      let ret := ((newRows.filter (fun r =>
        aget r M.primary_key == Option.some instPk)).head?).bind
          (fun r => aget r M.primary_key)
      if ret == Option.some instPk then
        .ok (instPk, inst, ⟨newRows, s.nextPk⟩)
      else .error (.assertionError "assert self.pk == pk")
    else
      let (pk, s2) := insertReturning M s inst
      .ok (pk, aset inst M.primary_key pk, s2)

theorem aget_aset_self (r : Row) (k : String) (v : PyVal) :
    aget (aset r k v) k = Option.some v := by
  induction r with
  | nil => simp [aset, aget]
  | cons hd t ih =>
    obtain ⟨k1, v1⟩ := hd
    by_cases hk : k1 = k <;> simp [aset, aget, hk, ih]

theorem aget_aset_ne (r : Row) (kk k : String) (v : PyVal) (h : kk ≠ k) :
    aget (aset r kk v) k = aget r k := by
  induction r with
  | nil => simp [aset, aget, h]
  | cons hd t ih =>
    obtain ⟨k1, v1⟩ := hd
    by_cases hk : k1 = kk
    · subst hk
      simp [aset, aget, h, fun hc : k1 = k => h hc]
    · simp [aset, aget, hk, ih]

theorem aget_isSome_iff (r : Row) (k : String) :
    ((aget r k).isSome = true) ↔ k ∈ r.map Prod.fst := by
  induction r with
  | nil => simp [aget]
  | cons hd t ih =>
    obtain ⟨k1, v1⟩ := hd
    by_cases hk : k1 = k
    · subst hk
      simp [aget]
    · simp only [aget, if_neg hk, List.map_cons, List.mem_cons, ih]
      constructor
      · intro h
        exact Or.inr h
      · rintro (h | h)
        · exact absurd h.symm hk
        · exact h

theorem aget_eq_none_of_not_mem (r : Row) (k : String)
    (h : ¬ k ∈ r.map Prod.fst) : aget r k = Option.none := by
  cases hh : aget r k with
  | none => rfl
  | some v =>
    exact absurd ((aget_isSome_iff r k).mp (by rw [hh]; rfl)) h

theorem map_fst_filter (inst : Row) (q : String → Bool) :
    (inst.filter (fun kv => q kv.1)).map Prod.fst
      = (inst.map Prod.fst).filter q := by
  induction inst with
  | nil => rfl
  | cons hd t ih =>
    obtain ⟨k1, v1⟩ := hd
    by_cases hq : q k1 <;> simp [List.filter_cons, hq, ih]

theorem aget_filter_key (inst : Row) (q : String → Bool) (k : String)
    (hnd : (inst.map Prod.fst).Nodup) :
    aget (inst.filter (fun kv => q kv.1)) k
      = if q k then aget inst k else Option.none := by
  induction inst with
  | nil => cases q k <;> simp [aget]
  | cons hd t ih =>
    obtain ⟨k1, v1⟩ := hd
    simp only [List.map_cons, List.nodup_cons] at hnd
    obtain ⟨hk1, hndt⟩ := hnd
    by_cases hq : q k1
    · by_cases hk : k1 = k
      · subst hk
        simp [List.filter_cons, hq, aget]
      · simp [List.filter_cons, hq, aget, hk, ih hndt]
    · by_cases hk : k1 = k
      · subst hk
        have hnone : aget (t.filter (fun kv => q kv.1)) k1 = Option.none := by
          apply aget_eq_none_of_not_mem
          rw [map_fst_filter]
          intro hc
          exact hk1 (List.mem_of_mem_filter hc)
        simp [List.filter_cons, hq, aget, hnone]
      · simp [List.filter_cons, hq, aget, hk, ih hndt]

theorem rowUpdate_aget (values : Row) (r : Row) (k : String)
    (hnd : (values.map Prod.fst).Nodup) :
    aget (rowUpdate r values) k = (aget values k).or (aget r k) := by
  induction values generalizing r with
  | nil => simp [rowUpdate, aget]
  | cons hd t ih =>
    obtain ⟨k1, v1⟩ := hd
    simp only [List.map_cons, List.nodup_cons] at hnd
    obtain ⟨hk1, hndt⟩ := hnd
    have hstep : rowUpdate r ((k1, v1) :: t) = rowUpdate (aset r k1 v1) t := rfl
    rw [hstep, ih _ hndt]
    by_cases hk : k1 = k
    · subst hk
      have hnone : aget t k1 = Option.none :=
        aget_eq_none_of_not_mem _ _ hk1
      simp [aget, hnone, aget_aset_self]
    · simp [aget, hk, aget_aset_ne _ _ _ _ hk]

theorem rowUpdate_filter_aget (inst : Row) (q : String → Bool) (r : Row)
    (k : String) (hnd : (inst.map Prod.fst).Nodup) :
    aget (rowUpdate r (inst.filter (fun kv => q kv.1))) k
      = if k ∈ (inst.map Prod.fst).filter q then aget inst k
        else aget r k := by
  have hndf : ((inst.filter (fun kv => q kv.1)).map Prod.fst).Nodup := by
    rw [map_fst_filter]
    exact hnd.filter _
  rw [rowUpdate_aget _ _ _ hndf, aget_filter_key _ _ _ hnd]
  by_cases hq : q k
  · rw [if_pos hq]
    cases hin : aget inst k with
    | some v =>
      have hm : k ∈ inst.map Prod.fst :=
        (aget_isSome_iff _ _).mp (by rw [hin]; rfl)
      rw [if_pos (List.mem_filter.mpr ⟨hm, hq⟩)]
      rfl
    | none =>
      have hm : ¬ k ∈ inst.map Prod.fst := by
        intro hm
        have hi := (aget_isSome_iff inst k).mpr hm
        rw [hin] at hi
        simp at hi
      rw [if_neg (fun hmem => hm (List.mem_filter.mp hmem).1)]
      rfl
  · rw [if_neg hq, if_neg (fun hmem => hq (List.mem_filter.mp hmem).2)]
    rfl

theorem rowUpdate_full_aget (inst : Row) (r : Row) (k : String)
    (hnd : (inst.map Prod.fst).Nodup) :
    aget (rowUpdate r inst) k
      = if k ∈ inst.map Prod.fst then aget inst k else aget r k := by
  rw [rowUpdate_aget _ _ _ hnd]
  cases hin : aget inst k with
  | some v =>
    have hm : k ∈ inst.map Prod.fst :=
      (aget_isSome_iff _ _).mp (by rw [hin]; rfl)
    rw [if_pos hm]
    rfl
  | none =>
    have hm : ¬ k ∈ inst.map Prod.fst := by
      intro hm
      have hi := (aget_isSome_iff inst k).mpr hm
      rw [hin] at hi
      simp at hi
    rw [if_neg hm]
    rfl

/-- Per-column effect of the `save` UPDATE on one stored row: columns in
`saveUpdateColumns` take the instance's value, all others are
untouched. -/
theorem saveValues_update_char (M : ModelT) (inst : Row)
    (fields : Option (List String)) (r : Row) (k : String)
    (hnd : (inst.map Prod.fst).Nodup) :
    aget (rowUpdate r (saveValues M inst fields)) k
      = if k ∈ saveUpdateColumns M inst fields then aget inst k
        else aget r k := by
  by_cases hf : fields.getD [] ≠ []
  · have hv : saveValues M inst fields
        = inst.filter
            (fun kv => ((fields.getD [] ++ M.fields_permanent)).contains kv.1) := by
      simp [saveValues, hf]
    rw [saveUpdateColumns, hv,
      map_fst_filter inst
        (fun key => (fields.getD [] ++ M.fields_permanent).contains key)]
    exact rowUpdate_filter_aget inst _ r k hnd
  · by_cases hro : M.fields_readonly ≠ []
    · have hv : saveValues M inst fields
          = inst.filter (fun kv => !(M.fields_readonly.contains kv.1)) := by
        simp [saveValues, hf, hro]
      rw [saveUpdateColumns, hv,
        map_fst_filter inst (fun key => !(M.fields_readonly.contains key))]
      exact rowUpdate_filter_aget inst
        (fun key => !(M.fields_readonly.contains key)) r k hnd
    · have hv : saveValues M inst fields = inst := by
        simp [saveValues, hf, hro]
      rw [saveUpdateColumns, hv]
      exact rowUpdate_full_aget inst r k hnd

theorem head?_mem {α : Type} (l : List α) (a : α)
    (h : l.head? = Option.some a) : a ∈ l := by
  cases l with
  | nil => cases h
  | cons x t =>
    simp [List.head?] at h
    rw [h]
    exact List.mem_cons_self a t

/-- C2 counterexample: on a persisted instance carrying only `id` and `a`,
`save(fields=["a", "b"])` updates only column `a` — not the claimed set
`["a", "b"]`: the stored row keeps its old `b` value. -/
theorem save_update_columns_counterexample :
    saveUpdateColumns ⟨"t", ["id", "a", "b"], "id", [], [], [], [], Option.none⟩
        [("id", PyVal.int 1), ("a", PyVal.int 2)] (Option.some ["a", "b"])
      = ["a"] ∧
    saveUpdateColumnsClaimed ⟨"t", ["id", "a", "b"], "id", [], [], [], [], Option.none⟩
        [("id", PyVal.int 1), ("a", PyVal.int 2)] (Option.some ["a", "b"])
      = ["a", "b"] ∧
    saveUpdateColumns ⟨"t", ["id", "a", "b"], "id", [], [], [], [], Option.none⟩
        [("id", PyVal.int 1), ("a", PyVal.int 2)] (Option.some ["a", "b"])
      ≠ saveUpdateColumnsClaimed ⟨"t", ["id", "a", "b"], "id", [], [], [], [], Option.none⟩
        [("id", PyVal.int 1), ("a", PyVal.int 2)] (Option.some ["a", "b"]) ∧
    modelSave ⟨"t", ["id", "a", "b"], "id", [], [], [], [], Option.none⟩
        ⟨[[("id", PyVal.int 1), ("a", PyVal.int 0), ("b", PyVal.int 9)]], 2⟩
        [("id", PyVal.int 1), ("a", PyVal.int 2)] (Option.some ["a", "b"])
      = Except.ok (PyVal.int 1, [("id", PyVal.int 1), ("a", PyVal.int 2)],
          ⟨[[("id", PyVal.int 1), ("a", PyVal.int 2), ("b", PyVal.int 9)]], 2⟩) := by
  refine ⟨by decide, by decide, by decide, by decide⟩

/-- C2 amended: for a persisted instance, `save` updates exactly the
columns of `saveUpdateColumns`: with a `fields` argument, those of the
given fields plus `fields_permanent` that are currently present on the
instance; else, with `fields_readonly` declared, every instance field not
in `fields_readonly`; else every field currently on the instance.
Matching rows take the instance's values on exactly that column set and
keep their old values elsewhere. -/
theorem save_update_spec (M : ModelT) (s : DbState) (inst : Row)
    (fields : Option (List String)) (pkv : PyVal) (row0 : Row)
    (hnd : (inst.map Prod.fst).Nodup)
    (hpk : aget inst M.primary_key = Option.some pkv)
    (hkey : isKeyType pkv = true)
    (hfound : (s.rows.filter (fun r =>
        (SqlPred.eq M.primary_key pkv).eval r)).head? = Option.some row0)
    (hcols : effectiveFieldsOne M Option.none ≠ []) :
    modelSave M s inst fields
      = Except.ok (pkv, inst,
          ⟨s.rows.map (fun r =>
            if aget r M.primary_key == Option.some pkv then
              rowUpdate r (saveValues M inst fields)
            else r), s.nextPk⟩) ∧
    (∀ r k, aget (rowUpdate r (saveValues M inst fields)) k
        = if k ∈ saveUpdateColumns M inst fields then aget inst k
          else aget r k) ∧
    (saveUpdateColumns M inst fields
      = if fields.getD [] ≠ [] then
          (inst.map Prod.fst).filter
            (fun k => (fields.getD [] ++ M.fields_permanent).contains k)
        else if M.fields_readonly ≠ [] then
          (inst.map Prod.fst).filter (fun k => !(M.fields_readonly.contains k))
        else inst.map Prod.fst) := by
  have hchar := fun r k => saveValues_update_char M inst fields r k hnd
  refine ⟨?_, hchar, ?_⟩
  · -- the save equation
    have hw := modelWhere_key M pkv [] hkey
    simp only [List.map_nil, List.foldl_nil] at hw
    have hraw : modelGetOneRaw M s.rows [QArg.val pkv] Option.none
        = Except.ok (Option.some
            (projectRow (effectiveFieldsOne M Option.none) row0)) := by
      simp only [modelGetOneRaw, hw, hfound, Option.map_some']
    have hpred0 : aget row0 M.primary_key = Option.some pkv := by
      have hmemf := head?_mem _ _ hfound
      have := (List.mem_filter.mp hmemf).2
      simp [SqlPred.eval] at this
      exact this
    have hpredu : ∀ r, aget r M.primary_key = Option.some pkv →
        aget (rowUpdate r (saveValues M inst fields)) M.primary_key
          = Option.some pkv := by
      intro r hr
      rw [hchar r M.primary_key]
      split
      · exact hpk
      · exact hr
    have hmem0 : row0 ∈ s.rows := (List.mem_filter.mp (head?_mem _ _ hfound)).1
    have hmemnew : rowUpdate row0 (saveValues M inst fields) ∈
        (s.rows.map (fun r =>
          if aget r M.primary_key == Option.some pkv then
            rowUpdate r (saveValues M inst fields)
          else r)).filter (fun r =>
            aget r M.primary_key == Option.some pkv) := by
      apply List.mem_filter.mpr
      constructor
      · have : (if aget row0 M.primary_key == Option.some pkv then
            rowUpdate row0 (saveValues M inst fields) else row0)
            = rowUpdate row0 (saveValues M inst fields) := by
          simp [hpred0]
        rw [← this]
        exact List.mem_map_of_mem _ hmem0
      · simp [hpredu row0 hpred0]
    have hne : ((s.rows.map (fun r =>
        if aget r M.primary_key == Option.some pkv then
          rowUpdate r (saveValues M inst fields)
        else r)).filter (fun r =>
          aget r M.primary_key == Option.some pkv)) ≠ [] :=
      List.ne_nil_of_mem hmemnew
    obtain ⟨h0, t0, hct⟩ := List.exists_cons_of_ne_nil hne
    have hh0 : aget h0 M.primary_key = Option.some pkv := by
      have hm : h0 ∈ ((s.rows.map (fun r =>
          if aget r M.primary_key == Option.some pkv then
            rowUpdate r (saveValues M inst fields)
          else r)).filter (fun r =>
            aget r M.primary_key == Option.some pkv)) := by
        rw [hct]
        exact List.mem_cons_self h0 t0
      have := (List.mem_filter.mp hm).2
      simpa using this
    simp only [modelSave, hpk, hraw, Option.getD_some]
    have htr : rowTruthy (Option.some
        (projectRow (effectiveFieldsOne M Option.none) row0)) = true := by
      simp [rowTruthy, projectRow_ne_nil _ row0 hcols]
    rw [htr]
    simp only [if_true, hct, List.head?_cons, Option.some_bind, hh0]
    simp
  · -- the column-set characterization
    by_cases hf : fields.getD [] ≠ []
    · rw [saveUpdateColumns]
      have hv : saveValues M inst fields
          = inst.filter
              (fun kv => ((fields.getD [] ++ M.fields_permanent)).contains kv.1) := by
        simp [saveValues, hf]
      rw [hv, map_fst_filter inst
        (fun key => (fields.getD [] ++ M.fields_permanent).contains key),
        if_pos hf]
    · by_cases hro : M.fields_readonly ≠ []
      · rw [saveUpdateColumns]
        have hv : saveValues M inst fields
            = inst.filter (fun kv => !(M.fields_readonly.contains kv.1)) := by
          simp [saveValues, hf, hro]
        rw [hv, map_fst_filter inst
          (fun key => !(M.fields_readonly.contains key)), if_neg hf, if_pos hro]
      · rw [saveUpdateColumns]
        have hv : saveValues M inst fields = inst := by
          simp [saveValues, hf, hro]
        rw [hv, if_neg hf, if_neg hro]

/-- Concrete record type for instantiating the `save` theorems. -/
def c2M : ModelT := ⟨"t", ["id", "a", "b"], "id", [], [], [], [], Option.none⟩

/-- A concrete instance carrying only `id` and `a`. -/
def c2Inst : Row := [("id", PyVal.int 1), ("a", PyVal.int 2)]

/-- The persisted backing row of `c2Inst`. -/
def c2Row : Row := [("id", PyVal.int 1), ("a", PyVal.int 0), ("b", PyVal.int 9)]

/-- A database state holding exactly `c2Row`. -/
def c2S : DbState := ⟨[c2Row], 2⟩

theorem save_update_spec_witness :
    modelSave c2M c2S c2Inst (Option.some ["a", "b"])
      = Except.ok (PyVal.int 1, c2Inst,
          ⟨c2S.rows.map (fun r =>
            if aget r c2M.primary_key == Option.some (PyVal.int 1) then
              rowUpdate r (saveValues c2M c2Inst (Option.some ["a", "b"]))
            else r), c2S.nextPk⟩) ∧
    (∀ r k,
      aget (rowUpdate r (saveValues c2M c2Inst (Option.some ["a", "b"]))) k
        = if k ∈ saveUpdateColumns c2M c2Inst (Option.some ["a", "b"]) then
            aget c2Inst k
          else aget r k) ∧
    (saveUpdateColumns c2M c2Inst (Option.some ["a", "b"])
      = if (Option.some ["a", "b"] : Option (List String)).getD [] ≠ [] then
          (c2Inst.map Prod.fst).filter
            (fun k => ((Option.some ["a", "b"] : Option (List String)).getD []
              ++ c2M.fields_permanent).contains k)
        else if c2M.fields_readonly ≠ [] then
          (c2Inst.map Prod.fst).filter
            (fun k => !(c2M.fields_readonly.contains k))
        else c2Inst.map Prod.fst) :=
  save_update_spec c2M c2S c2Inst (Option.some ["a", "b"]) (PyVal.int 1) c2Row
    (by decide) (by decide) (by decide) (by decide) (by decide)

/-- `Model.get_or_create` (amodels.py:497-515): with no positional
predicates but the primary key present in `defaults`, the bare key value
becomes the lookup argument; with any lookup arguments, `_get_one` is
tried first and a (truthy) hit returns `(row, False)` with the database
untouched; otherwise a row built from `defaults` is inserted and
`(defaults + generated primary key, True)` is returned. -/
def modelGetOrCreate (M : ModelT) (s : DbState) (args : List QArg)
    (defaults : Row) : Except ModelError ((Row × Bool) × DbState) :=
  let args2 :=
    if args ≠ [] then args
    else
      match aget defaults M.primary_key with
      | Option.some v => [QArg.val v]
      | Option.none => []
  if args2 = [] then
    let (pk, s2) := insertReturning M s defaults
    .ok ((aset defaults M.primary_key pk, true), s2)
  else
    match modelGetOneRaw M s.rows args2 Option.none with
    | .error e => .error e
    | .ok saved =>
      if rowTruthy saved then
        .ok ((saved.getD [], false), s)
      else
        let (pk, s2) := insertReturning M s defaults
        .ok ((aset defaults M.primary_key pk, true), s2)

/-- C7: `get_or_create` attempts a lookup when explicit predicates are
given or when `defaults` carries the primary key; a hit returns the
existing record with `false` and leaves the database unchanged; a miss,
or a call with nothing to look up, inserts a row built from `defaults`
and returns it with its returned primary key set, paired with `true`,
the row being appended to the table. -/
theorem get_or_create_spec (M : ModelT) (s : DbState) (args : List QArg)
    (defaults : Row) :
    (∀ row, args ≠ [] →
      modelGetOneRaw M s.rows args Option.none
          = Except.ok (Option.some row) → row ≠ [] →
      modelGetOrCreate M s args defaults = Except.ok ((row, false), s)) ∧
    (∀ v row, args = [] → aget defaults M.primary_key = Option.some v →
      modelGetOneRaw M s.rows [QArg.val v] Option.none
          = Except.ok (Option.some row) → row ≠ [] →
      modelGetOrCreate M s args defaults = Except.ok ((row, false), s)) ∧
    (args ≠ [] →
      modelGetOneRaw M s.rows args Option.none = Except.ok Option.none →
      modelGetOrCreate M s args defaults
        = Except.ok
            ((aset defaults M.primary_key (insertReturning M s defaults).1,
              true),
             (insertReturning M s defaults).2)) ∧
    (∀ v, args = [] → aget defaults M.primary_key = Option.some v →
      modelGetOneRaw M s.rows [QArg.val v] Option.none
          = Except.ok Option.none →
      modelGetOrCreate M s args defaults
        = Except.ok
            ((aset defaults M.primary_key (insertReturning M s defaults).1,
              true),
             (insertReturning M s defaults).2)) ∧
    (args = [] → aget defaults M.primary_key = Option.none →
      modelGetOrCreate M s args defaults
        = Except.ok
            ((aset defaults M.primary_key (insertReturning M s defaults).1,
              true),
             (insertReturning M s defaults).2)) ∧
    (∀ vals, ∃ tail, (insertReturning M s vals).2.rows = s.rows ++ [tail]) := by
  refine ⟨?_, ?_, ?_, ?_, ?_, ?_⟩
  · intro row hne hraw hrow
    simp only [modelGetOrCreate, if_pos hne, if_neg hne, hraw]
    simp [rowTruthy, hrow]
  · intro v row hargs hpk hraw hrow
    subst hargs
    simp only [modelGetOrCreate, hpk]
    simp only [ne_eq, not_true_eq_false, if_false, reduceIte]
    simp [hraw, rowTruthy, hrow]
  · intro hne hraw
    simp only [modelGetOrCreate, if_pos hne, if_neg hne, hraw]
    simp [rowTruthy]
  · intro v hargs hpk hraw
    subst hargs
    simp only [modelGetOrCreate, hpk]
    simp only [ne_eq, not_true_eq_false, if_false, reduceIte]
    simp [hraw, rowTruthy]
  · intro hargs hpk
    subst hargs
    simp [modelGetOrCreate, hpk]
  · intro vals
    unfold insertReturning
    cases aget vals M.primary_key <;> simp

theorem get_or_create_spec_witness :
    modelGetOrCreate demoM ⟨[demoRow], 5⟩ [QArg.val (PyVal.int 1)]
        [("name", PyVal.str "bob")]
      = Except.ok ((demoRow, false), ⟨[demoRow], 5⟩) ∧
    modelGetOrCreate demoM ⟨[demoRow], 5⟩ []
        [("id", PyVal.int 7), ("name", PyVal.str "bob")]
      = Except.ok
          ((aset [("id", PyVal.int 7), ("name", PyVal.str "bob")]
              demoM.primary_key
              (insertReturning demoM ⟨[demoRow], 5⟩
                [("id", PyVal.int 7), ("name", PyVal.str "bob")]).1,
            true),
           (insertReturning demoM ⟨[demoRow], 5⟩
              [("id", PyVal.int 7), ("name", PyVal.str "bob")]).2) ∧
    modelGetOrCreate demoM ⟨[demoRow], 5⟩ [] [("name", PyVal.str "bob")]
      = Except.ok
          ((aset [("name", PyVal.str "bob")] demoM.primary_key
              (insertReturning demoM ⟨[demoRow], 5⟩
                [("name", PyVal.str "bob")]).1,
            true),
           (insertReturning demoM ⟨[demoRow], 5⟩
              [("name", PyVal.str "bob")]).2) :=
  ⟨(get_or_create_spec demoM ⟨[demoRow], 5⟩ [QArg.val (PyVal.int 1)]
      [("name", PyVal.str "bob")]).1 demoRow (by decide) (by decide) (by decide),
   (get_or_create_spec demoM ⟨[demoRow], 5⟩ []
      [("id", PyVal.int 7), ("name", PyVal.str "bob")]).2.2.2.1
      (PyVal.int 7) rfl (by decide) (by decide),
   (get_or_create_spec demoM ⟨[demoRow], 5⟩ []
      [("name", PyVal.str "bob")]).2.2.2.2.1 rfl (by decide)⟩

/-- Lookup of a registered record type by normalized name
(`Model.models[item]`). -/
def registryLookup (models : List (String × ModelT)) (item : String) :
    Option ModelT :=
  match models with
  | [] => Option.none
  | (k, m) :: t => if k = item then Option.some m else registryLookup t item

/-- `Model.factory(app)` (amodels.py:119-124): the per-application
specialization, a subclass carrying the application handle. -/
def modelFactory (m : ModelT) (app : Option String) : ModelT :=
  { m with app := app }

/-- `AppModels.__getattr__` (amodels.py:558-563, amodels/__init__.py:28-37):
a registered name is bound via `factory(app)` and returned; an
unregistered name raises `AttributeError`. -/
def appModelsGetattr (models : List (String × ModelT)) (app : Option String)
    (item : String) : Except ModelError ModelT :=
  match registryLookup models item with
  | Option.some m => .ok (modelFactory m app)
  | Option.none => .error (.attributeError item)

/-- C8 counterexample: binding an unregistered name raises
`AttributeError`, which is not the `NotFound` class (the spec's §7
taxonomy lists `NotFound` and the `AttributeError` class as distinct,
and the source raises the builtin `AttributeError`). -/
theorem appmodels_getattr_counterexample :
    appModelsGetattr [] Option.none "user_profile"
      = Except.error (ModelError.attributeError "user_profile") ∧
    (Except.error (ModelError.attributeError "user_profile") :
        Except ModelError ModelT)
      ≠ Except.error ModelError.notFound := by
  exact ⟨rfl, by decide⟩

/-- C8 amended: for every record-type name not present in the registry,
binding that name to an application fails with an `AttributeError`-class
error (not `NotFound`). -/
theorem appmodels_getattr_spec (models : List (String × ModelT))
    (app : Option String) (item : String)
    (h : registryLookup models item = Option.none) :
    appModelsGetattr models app item
      = Except.error (ModelError.attributeError item) ∧
    appModelsGetattr models app item ≠ Except.error ModelError.notFound := by
  constructor
  · simp [appModelsGetattr, h]
  · simp [appModelsGetattr, h]

theorem appmodels_getattr_spec_witness :
    registryLookup [("user", demoM)] "image" = Option.none ∧
    (appModelsGetattr [("user", demoM)] Option.none "image"
        = Except.error (ModelError.attributeError "image") ∧
     appModelsGetattr [("user", demoM)] Option.none "image"
        ≠ Except.error ModelError.notFound) :=
  ⟨by decide, appmodels_getattr_spec [("user", demoM)] Option.none "image"
    (by decide)⟩

/-- `Model.default_validator` (amodels.py:527-529):
`{f: data.get(f) for f in cls.table.columns.keys()}` — one entry per
table column, holding the input's value or Python `None`. -/
def default_validator (M : ModelT) (data : Row) : Row :=
  M.columns.map (fun f => (f, (aget data f).getD PyVal.none))

/-- `Model.validate` (amodels.py:517-525): the declared validators are
applied in order; with none declared (and the default enabled) the single
default validator runs.  A record instance is the same mapping, so the
`to_class` flag does not change the modelled value. -/
def modelValidate (M : ModelT) (validators : List (Row → Row)) (data : Row)
    (default_on : Bool := true) : Row :=
  let vs :=
    if validators.isEmpty && default_on then
      [fun d => default_validator M d]
    else validators
  vs.foldl (fun d v => v d) data

/-- The output claim C9 asserts for the default validator, taken verbatim
from the claim's words: the projection of the input onto the known
columns, dropping non-column keys. -/
def validateClaimed (M : ModelT) (data : Row) : Row :=
  data.filter (fun kv => M.columns.contains kv.1)

/-- C9 counterexample: on a table with single column `id`, validating the
empty mapping yields `{"id": None}`, not the empty mapping that a pure
projection of the input would give: missing columns are materialized
with `None`. -/
theorem validate_default_counterexample :
    modelValidate ⟨"t", ["id"], "id", [], [], [], [], Option.none⟩ [] []
      = [("id", PyVal.none)] ∧
    validateClaimed ⟨"t", ["id"], "id", [], [], [], [], Option.none⟩ []
      = ([] : Row) ∧
    modelValidate ⟨"t", ["id"], "id", [], [], [], [], Option.none⟩ [] []
      ≠ validateClaimed ⟨"t", ["id"], "id", [], [], [], [], Option.none⟩ [] ∧
    modelValidate ⟨"t", ["id"], "id", [], [], [], [], Option.none⟩ []
        [("extra", PyVal.int 7)]
      = [("id", PyVal.none)] := by
  exact ⟨rfl, rfl, by decide, rfl⟩

theorem aget_mapped (cols : List String) (g : String → PyVal) (k : String) :
    aget (cols.map (fun f => (f, g f))) k
      = if k ∈ cols then Option.some (g k) else Option.none := by
  induction cols with
  | nil => simp [aget]
  | cons c t ih =>
    by_cases hc : c = k
    · subst hc
      simp [aget]
    · simp only [List.map_cons, aget, if_neg hc, ih, List.mem_cons]
      by_cases hk : k ∈ t
      · simp [hk]
      · have h1 : ¬(k = c ∨ k ∈ t) := by
          rintro (he | he)
          · exact hc he.symm
          · exact hk he
        rw [if_neg hk, if_neg h1]

/-- C9 amended: with no declared validators, `validate` applies the
single default validator; its output has exactly the table's columns as
keys, each mapped to the input's value for that column when present and
to `None` when the input lacks it; input keys that are not columns are
dropped (absent from the output). -/
theorem validate_default_spec (M : ModelT) (data : Row) :
    modelValidate M [] data = default_validator M data ∧
    (default_validator M data).map Prod.fst = M.columns ∧
    (∀ k, k ∈ M.columns →
      aget (default_validator M data) k
        = Option.some ((aget data k).getD PyVal.none)) ∧
    (∀ k, ¬ k ∈ M.columns →
      aget (default_validator M data) k = Option.none) := by
  refine ⟨rfl, ?_, ?_, ?_⟩
  · rw [default_validator, List.map_map]
    exact List.map_id M.columns
  · intro k hk
    rw [default_validator, aget_mapped, if_pos hk]
  · intro k hk
    rw [default_validator, aget_mapped, if_neg hk]

theorem validate_default_spec_witness :
    modelValidate demoM [] [("name", PyVal.str "x"), ("extra", PyVal.int 3)]
      = default_validator demoM [("name", PyVal.str "x"), ("extra", PyVal.int 3)] ∧
    (default_validator demoM
        [("name", PyVal.str "x"), ("extra", PyVal.int 3)]).map Prod.fst
      = demoM.columns ∧
    (∀ k, k ∈ demoM.columns →
      aget (default_validator demoM
          [("name", PyVal.str "x"), ("extra", PyVal.int 3)]) k
        = Option.some ((aget [("name", PyVal.str "x"), ("extra", PyVal.int 3)]
            k).getD PyVal.none)) ∧
    (∀ k, ¬ k ∈ demoM.columns →
      aget (default_validator demoM
          [("name", PyVal.str "x"), ("extra", PyVal.int 3)]) k
        = Option.none) :=
  validate_default_spec demoM [("name", PyVal.str "x"), ("extra", PyVal.int 3)]

/-- The cache-store collaborator: key-value integers plus per-key TTLs
(`redis.get` / `redis.set` / `redis.expire`). -/
structure Redis : Type where
  vals : List (String × Int)
  ttls : List (String × Nat)
deriving Repr, DecidableEq

def slookup {α : Type} (l : List (String × α)) (k : String) : Option α :=
  match l with
  | [] => Option.none
  | (k1, v) :: t => if k1 = k then Option.some v else slookup t k

def sset {α : Type} (l : List (String × α)) (k : String) (v : α) :
    List (String × α) :=
  match l with
  | [] => [(k, v)]
  | (k1, v1) :: t => if k1 = k then (k, v) :: t else (k1, v1) :: sset t k v

def Redis.get (r : Redis) (k : String) : Option Int := slookup r.vals k

def Redis.setv (r : Redis) (k : String) (v : Int) : Redis :=
  ⟨sset r.vals k v, r.ttls⟩

def Redis.expire (r : Redis) (k : String) (ttl : Nat) : Redis :=
  ⟨r.vals, sset r.ttls k ttl⟩

/-- Modelled from the spec: `utils.get_hash` lives outside `src/`; per §6
the digest must be "a stable, deterministic hash of the literal-bound
compiled statement text (any stable hash function suffices)".  Modelled
as a stable injective digest string; it is never the empty string. -/
def get_hash (s : String) : String := "h:" ++ s

def PyVal.render : PyVal → String
  | .none => "NULL"
  | .int n => "int " ++ toString n
  | .str s => "str " ++ s
  | .uuid u => "uuid " ++ toString u
  | .bool b => "bool " ++ toString b

def SqlPred.render : SqlPred → String
  | .eq col v => col ++ " = " ++ v.render
  | .inList col vs =>
    col ++ " IN " ++ String.intercalate ", " (vs.map PyVal.render)
  | .and p q => "(" ++ p.render ++ ") AND (" ++ q.render ++ ")"

/-- Modelled from the spec: the literal-bound compiled text of the COUNT
statement (`str(sql.compile(compile_kwargs={"literal_binds": True}))`,
produced by the external SQLAlchemy compiler): a deterministic rendering
of the statement. -/
def countSqlText (M : ModelT) (whereOpt : Option SqlPred) : String :=
  "SELECT count FROM " ++ M.table_name ++
    (match whereOpt with
     | Option.some w => " WHERE " ++ w.render
     | Option.none => "")

/-- The WHERE clause of `get_count` (amodels.py:312-315): absent without
arguments, else `reduce(and_, args)`. -/
def countWhere (args : List SqlPred) : Option SqlPred :=
  match args with
  | [] => Option.none
  | p :: t => Option.some (t.foldl SqlPred.and p)

/-- The database's answer to the COUNT statement. -/
def realCount (tbl : List Row) (whereOpt : Option SqlPred) : Int :=
  ((match whereOpt with
    | Option.some w => tbl.filter (fun r => w.eval r)
    | Option.none => tbl).length : Int)

/-- The application-name cache prefix of `get_count` (amodels.py:327):
`app.name + ":count:"` when the bound application has a name, else the
bare `"count:"`. -/
def appCountPrefix (M : ModelT) : String :=
  match M.app with
  | Option.some n => n ++ ":count:"
  | Option.none => "count:"

/-- The cache key of `get_count` (amodels.py:323-328): the prefix plus
the caller's postfix when that is truthy (non-empty), else plus the
digest of the compiled statement text. -/
def countCacheKey (M : ModelT) (whereOpt : Option SqlPred)
    (pfx : Option String) : String :=
  appCountPrefix M ++
    (match pfx with
     | Option.some s =>
       if s = "" then get_hash (countSqlText M whereOpt) else s
     | Option.none => get_hash (countSqlText M whereOpt))

/-- `Model.get_count` (amodels.py:306-338): `expire == 0` always
recomputes, no cache interaction; otherwise a cache hit under the derived
key returns the cached integer without touching the database, and a miss
computes the count, stores it under the key and sets the TTL to
`expire`. -/
def modelGetCount (M : ModelT) (tbl : List Row) (args : List SqlPred)
    (pfx : Option String) (expire : Nat) (redis : Redis) : Int × Redis :=
  if expire = 0 then (realCount tbl (countWhere args), redis)
  else
    let key := countCacheKey M (countWhere args) pfx
    match redis.get key with
    | Option.some c => (c, redis)
    | Option.none =>
      let c := realCount tbl (countWhere args)
      (c, (redis.setv key c).expire key expire)

/-- C3 counterexample: a caller-supplied empty-string postfix is falsy in
`if not postfix:`, so the code derives the digest key instead of using
the supplied postfix — the cache entry lands under the digest key, not
under the bare prefix the claim's key rule would give. -/
theorem get_count_postfix_counterexample :
    countCacheKey ⟨"t", ["id"], "id", [], [], [], [], Option.none⟩
        Option.none (Option.some "")
      = "count:" ++ get_hash (countSqlText
          ⟨"t", ["id"], "id", [], [], [], [], Option.none⟩ Option.none) ∧
    countCacheKey ⟨"t", ["id"], "id", [], [], [], [], Option.none⟩
        Option.none (Option.some "")
      ≠ "count:" ++ "" ∧
    (modelGetCount ⟨"t", ["id"], "id", [], [], [], [], Option.none⟩
        [] [] (Option.some "") 60 ⟨[], []⟩).2.vals
      = [("count:" ++ get_hash (countSqlText
          ⟨"t", ["id"], "id", [], [], [], [], Option.none⟩ Option.none), 0)] := by
  exact ⟨rfl, by decide, rfl⟩

/-- C3 amended: with `expire == 0` the count is recomputed and the cache
neither read nor written; with `expire ≠ 0` the key is the
application-name prefix plus `"count:"` plus the caller-supplied postfix
if a NON-EMPTY one was given, else plus the digest of the compiled
statement text; a hit returns the cached integer without consulting the
database (the result is independent of the table contents), and a miss
computes, stores under the key, and sets TTL `expire`. -/
theorem get_count_spec (M : ModelT) (tbl : List Row) (args : List SqlPred)
    (pfx : Option String) (expire : Nat) (redis : Redis) :
    (modelGetCount M tbl args pfx 0 redis
        = (realCount tbl (countWhere args), redis)) ∧
    (∀ s, pfx = Option.some s → s ≠ "" →
      countCacheKey M (countWhere args) pfx = appCountPrefix M ++ s) ∧
    (pfx = Option.none →
      countCacheKey M (countWhere args) pfx
        = appCountPrefix M ++ get_hash (countSqlText M (countWhere args))) ∧
    (∀ c, expire ≠ 0 →
      redis.get (countCacheKey M (countWhere args) pfx) = Option.some c →
      modelGetCount M tbl args pfx expire redis = (c, redis) ∧
      (∀ tbl2, modelGetCount M tbl2 args pfx expire redis = (c, redis))) ∧
    (expire ≠ 0 →
      redis.get (countCacheKey M (countWhere args) pfx) = Option.none →
      modelGetCount M tbl args pfx expire redis
        = (realCount tbl (countWhere args),
           (redis.setv (countCacheKey M (countWhere args) pfx)
              (realCount tbl (countWhere args))).expire
             (countCacheKey M (countWhere args) pfx) expire)) := by
  refine ⟨?_, ?_, ?_, ?_, ?_⟩
  · simp [modelGetCount]
  · intro s hs hne
    subst hs
    simp [countCacheKey, hne]
  · intro hp
    subst hp
    simp [countCacheKey]
  · intro c hexp hhit
    constructor
    · simp [modelGetCount, hexp, hhit]
    · intro tbl2
      simp [modelGetCount, hexp, hhit]
  · intro hexp hmiss
    simp [modelGetCount, hexp, hmiss]

theorem get_count_spec_witness :
    (modelGetCount demoM [demoRow] [] (Option.some "all") 0 ⟨[], []⟩
        = (realCount [demoRow] (countWhere []), ⟨[], []⟩)) ∧
    (∀ s, (Option.some "all" : Option String) = Option.some s → s ≠ "" →
      countCacheKey demoM (countWhere []) (Option.some "all")
        = appCountPrefix demoM ++ s) ∧
    ((Option.some "all" : Option String) = Option.none →
      countCacheKey demoM (countWhere []) (Option.some "all")
        = appCountPrefix demoM
            ++ get_hash (countSqlText demoM (countWhere []))) ∧
    (∀ c, (60 : Nat) ≠ 0 →
      Redis.get ⟨[], []⟩ (countCacheKey demoM (countWhere [])
          (Option.some "all")) = Option.some c →
      modelGetCount demoM [demoRow] [] (Option.some "all") 60 ⟨[], []⟩
          = (c, ⟨[], []⟩) ∧
      (∀ tbl2, modelGetCount demoM tbl2 [] (Option.some "all") 60 ⟨[], []⟩
          = (c, ⟨[], []⟩))) ∧
    ((60 : Nat) ≠ 0 →
      Redis.get ⟨[], []⟩ (countCacheKey demoM (countWhere [])
          (Option.some "all")) = Option.none →
      modelGetCount demoM [demoRow] [] (Option.some "all") 60 ⟨[], []⟩
        = (realCount [demoRow] (countWhere []),
           (Redis.setv ⟨[], []⟩ (countCacheKey demoM (countWhere [])
                (Option.some "all"))
              (realCount [demoRow] (countWhere []))).expire
             (countCacheKey demoM (countWhere []) (Option.some "all")) 60)) :=
  get_count_spec demoM [demoRow] [] (Option.some "all") 60 ⟨[], []⟩

/-- JSON documents as handled by `update_json` (JSONB values). -/
inductive Json : Type where
  | null : Json
  | num (n : Int) : Json
  | str (s : String) : Json
  | bool (b : Bool) : Json
  | obj (kvs : List (String × Json)) : Json

/-- A row of JSONB columns: column name to SQL-nullable JSON value
(`Option.none` is SQL NULL). -/
abbrev JRow : Type := List (String × Option Json)

/-- A positional argument used as a field name or path segment must be a
string; the engine would otherwise fail looking up `table.c[field]` /
building the dict, modelled as `typeError`. -/
def asFieldName : Json → Except ModelError String
  | .str s => .ok s
  | _ => .error (.typeError "field names must be strings")

def fieldNames : List Json → Except ModelError (List String)
  | [] => .ok []
  | j :: t =>
    match asFieldName j, fieldNames t with
    | .ok s, .ok ss => .ok (s :: ss)
    | .error e, _ => .error e
    | _, .error e => .error e

/-- The path-folding loop of `update_json` (amodels.py:464-465):
`for p in reversed(path): value = {p: value}`. -/
def nestLoop (path : List String) (value : Json) : Json :=
  (path.reverse).foldl (fun acc p => Json.obj [(p, acc)]) value

/-- Argument analysis of `Model.update_json` (amodels.py:458-468): with
positional arguments and no keyword arguments, the last positional is
the value and the middle ones the path; with keyword arguments (or a
single positional), the keyword dict itself is the value and every
positional after the field is a path segment; with neither, `ValueError`
is raised. -/
def update_json_parse (args : List Json) (kwargs : List (String × Json)) :
    Except ModelError (List (String × Json)) :=
  match args with
  | [] =>
    if kwargs.isEmpty then .error (.valueError "Need args or kwargs")
    else .ok kwargs
  | a :: rest =>
    match asFieldName a with
    | .error e => .error e
    | .ok field =>
      if 1 < (a :: rest).length && kwargs.isEmpty then
        match fieldNames rest.dropLast with
        | .error e => .error e
        | .ok path =>
          .ok [(field, nestLoop path ((rest.getLast?).getD Json.null))]
      else
        match fieldNames rest with
        | .error e => .error e
        | .ok path => .ok [(field, nestLoop path (Json.obj kwargs))]

/-- The top-level JSONB object concatenation `a || b`: keys of `b` win,
keys of `a` not in `b` survive.  (Postgres stores object keys in its own
internal order; the model keeps surviving `a`-keys then `b`-keys, which
is the same mapping.) -/
def mergeObj (ka kb : List (String × Json)) : List (String × Json) :=
  ka.filter (fun kv => !((kb.map Prod.fst).contains kv.1)) ++ kb

/-- `||` on JSONB as `update_json` uses it: defined on two objects;
other operand shapes are outside the engine's JSON-merge-patch use and
are left undefined. -/
def jsonbConcat : Json → Json → Option Json
  | .obj ka, .obj kb => Option.some (.obj (mergeObj ka kb))
  | _, _ => Option.none

/-- `COALESCE(column, cast({}, JSONB))`: the stored value when not SQL
NULL, else the empty object. -/
def coalesceEmpty (v : Option Json) : Json := v.getD (Json.obj [])

/-- One UPDATE `values` entry per patched field:
`COALESCE(t.c[field], {}) || value` (amodels.py:470-480). -/
def applyPatches (row : JRow) : List (String × Json) → Option JRow
  | [] => Option.some row
  | (f, v) :: t =>
    match jsonbConcat (coalesceEmpty ((slookup row f).join)) v with
    | Option.some nv => applyPatches (sset row f (Option.some nv)) t
    | Option.none => Option.none

/-- `Model.update_json` (amodels.py:455-480) applied to the instance's
backing row. -/
def modelUpdateJson (row : JRow) (args : List Json)
    (kwargs : List (String × Json)) : Except ModelError JRow :=
  match update_json_parse args kwargs with
  | .error e => .error e
  | .ok kw =>
    match applyPatches row kw with
    | Option.some r2 => .ok r2
    | Option.none => .error (.typeError "invalid jsonb concatenation")

theorem slookup_append {α : Type} (l1 l2 : List (String × α)) (k : String) :
    slookup (l1 ++ l2) k = (slookup l1 k).or (slookup l2 k) := by
  induction l1 with
  | nil => simp [slookup]
  | cons hd t ih =>
    obtain ⟨k1, v1⟩ := hd
    by_cases hk : k1 = k <;> simp [slookup, hk, ih]

theorem slookup_none_of_not_mem {α : Type} (l : List (String × α)) (k : String)
    (h : ¬ k ∈ l.map Prod.fst) : slookup l k = Option.none := by
  induction l with
  | nil => rfl
  | cons hd t ih =>
    obtain ⟨k1, v1⟩ := hd
    simp only [List.map_cons, List.mem_cons] at h
    have h1 : ¬ k1 = k := fun he => h (Or.inl he.symm)
    have h2 : ¬ k ∈ t.map Prod.fst := fun hm => h (Or.inr hm)
    simp [slookup, h1, ih h2]

theorem map_fst_filter_gen {α : Type} (l : List (String × α))
    (q : String → Bool) :
    (l.filter (fun kv => q kv.1)).map Prod.fst = (l.map Prod.fst).filter q := by
  induction l with
  | nil => rfl
  | cons hd t ih =>
    obtain ⟨k1, v1⟩ := hd
    by_cases hq : q k1 <;> simp [List.filter_cons, hq, ih]

theorem slookup_filter_key {α : Type} (l : List (String × α))
    (q : String → Bool) (k : String) (hnd : (l.map Prod.fst).Nodup) :
    slookup (l.filter (fun kv => q kv.1)) k
      = if q k then slookup l k else Option.none := by
  induction l with
  | nil => cases q k <;> simp [slookup]
  | cons hd t ih =>
    obtain ⟨k1, v1⟩ := hd
    simp only [List.map_cons, List.nodup_cons] at hnd
    obtain ⟨hk1, hndt⟩ := hnd
    by_cases hq : q k1
    · by_cases hk : k1 = k
      · subst hk
        simp [List.filter_cons, hq, slookup]
      · simp [List.filter_cons, hq, slookup, hk, ih hndt]
    · by_cases hk : k1 = k
      · subst hk
        have hnone : slookup (t.filter (fun kv => q kv.1)) k1 = Option.none := by
          apply slookup_none_of_not_mem
          rw [map_fst_filter_gen]
          intro hc
          exact hk1 (List.mem_of_mem_filter hc)
        simp [List.filter_cons, hq, slookup, hnone]
      · simp [List.filter_cons, hq, slookup, hk, ih hndt]

/-- Shallow-merge semantics of the top-level JSONB concatenation: keys of
the right operand are replaced wholesale (deep values included), other
keys keep the left operand's values. -/
theorem mergeObj_lookup (ka kb : List (String × Json)) (k : String)
    (hnd : (ka.map Prod.fst).Nodup) :
    slookup (mergeObj ka kb) k
      = if k ∈ kb.map Prod.fst then slookup kb k else slookup ka k := by
  unfold mergeObj
  rw [slookup_append,
    slookup_filter_key ka (fun key => !((kb.map Prod.fst).contains key)) k hnd]
  by_cases hm : k ∈ kb.map Prod.fst
  · have hq : ((kb.map Prod.fst).contains k) = true := by simp [hm]
    rw [if_pos hm, hq]
    simp
  · have hq : ((kb.map Prod.fst).contains k) = false := by simp [hm]
    have h1 : slookup kb k = Option.none := slookup_none_of_not_mem kb k hm
    rw [if_neg hm, h1, hq]
    simp

theorem fieldNames_map (path : List String) :
    fieldNames (path.map Json.str) = Except.ok path := by
  induction path with
  | nil => rfl
  | cons p t ih => simp [fieldNames, asFieldName, ih]

/-- C6: positional path segments fold into nested single-key objects from
innermost outward (`update_json("f", "a", "b", v)` patches field `f` with
`{"a": {"b": v}}`); the applied update expression is
`COALESCE(column, {}) || fragment`, a shallow top-level merge whose
right-operand keys replace deeper values wholesale; and a call with
neither positional nor keyword arguments raises the validation
(`ValueError`) error. -/
theorem update_json_spec (f a b : String) (v : Json) (row : JRow) :
    (∀ (p : String) (rest : List String) (w : Json),
      nestLoop (p :: rest) w = Json.obj [(p, nestLoop rest w)]) ∧
    (update_json_parse [Json.str f, Json.str a, Json.str b, v] []
        = Except.ok [(f, Json.obj [(a, Json.obj [(b, v)])])]) ∧
    (∀ (path : List String) (value : Json),
      update_json_parse (Json.str f :: (path.map Json.str ++ [value])) []
        = Except.ok [(f, nestLoop path value)]) ∧
    (∀ (ka kb : List (String × Json)) (k2 : String),
      (ka.map Prod.fst).Nodup →
      slookup (mergeObj ka kb) k2
        = if k2 ∈ kb.map Prod.fst then slookup kb k2 else slookup ka k2) ∧
    (∀ (frag nv : Json),
      jsonbConcat (coalesceEmpty ((slookup row f).join)) frag
          = Option.some nv →
      modelUpdateJson row [] [(f, frag)]
        = Except.ok (sset row f (Option.some nv))) ∧
    (modelUpdateJson row [] []
        = Except.error (ModelError.valueError "Need args or kwargs")) := by
  refine ⟨?_, ?_, ?_, fun ka kb k2 hnd => mergeObj_lookup ka kb k2 hnd, ?_, rfl⟩
  · intro p rest w
    simp [nestLoop, List.foldl_append]
  · rfl
  · intro path value
    have hc : (decide (1 <
        (Json.str f :: (path.map Json.str ++ [value])).length)
          && (List.isEmpty ([] : List (String × Json)))) = true := by
      simp [List.length_append, List.length_map]
    simp only [update_json_parse, asFieldName, hc, if_true,
      List.dropLast_concat, List.getLast?_concat, fieldNames_map,
      Option.getD_some]
  · intro frag nv h
    have h2 : jsonbConcat (coalesceEmpty ((slookup row f).bind fun j => j)) frag
        = Option.some nv := h
    simp [modelUpdateJson, update_json_parse, applyPatches, h2]

theorem update_json_spec_witness :
    (∀ (p : String) (rest : List String) (w : Json),
      nestLoop (p :: rest) w = Json.obj [(p, nestLoop rest w)]) ∧
    (update_json_parse [Json.str "meta", Json.str "a", Json.str "b", Json.num 1] []
        = Except.ok [("meta", Json.obj [("a", Json.obj [("b", Json.num 1)])])]) ∧
    (∀ (path : List String) (value : Json),
      update_json_parse (Json.str "meta" :: (path.map Json.str ++ [value])) []
        = Except.ok [("meta", nestLoop path value)]) ∧
    (∀ (ka kb : List (String × Json)) (k2 : String),
      (ka.map Prod.fst).Nodup →
      slookup (mergeObj ka kb) k2
        = if k2 ∈ kb.map Prod.fst then slookup kb k2 else slookup ka k2) ∧
    (∀ (frag nv : Json),
      jsonbConcat (coalesceEmpty ((slookup ([] : JRow) "meta").join)) frag
          = Option.some nv →
      modelUpdateJson ([] : JRow) [] [("meta", frag)]
        = Except.ok (sset ([] : JRow) "meta" (Option.some nv))) ∧
    (modelUpdateJson ([] : JRow) [] []
        = Except.error (ModelError.valueError "Need args or kwargs")) :=
  update_json_spec "meta" "a" "b" (Json.num 1) ([] : JRow)

/-- `row[k]` on a fetched row: `KeyError` when the column is absent. -/
def rowItem (r : Row) (k : String) : Except ModelError PyVal :=
  match aget r k with
  | Option.some v => .ok v
  | Option.none => .error (.keyError k)

/-- Dict lookup keyed by Python values (`targets[target_key]`). -/
def pydget (d : List (PyVal × Row)) (k : PyVal) : Option Row :=
  match d with
  | [] => Option.none
  | (k1, v) :: t => if k1 = k then Option.some v else pydget t k

/-- Lookup in the source-key-to-target-list result mapping. -/
def glookup (m : List (PyVal × List Row)) (k : PyVal) : Option (List Row) :=
  match m with
  | [] => Option.none
  | (k1, vs) :: t => if k1 = k then Option.some vs else glookup t k

/-- `result[source_key].append(target)` on a `defaultdict(list)`: append
to an existing group, or add a new group at the end (Python dict
insertion order). -/
def groupInsert (acc : List (PyVal × List Row)) (k : PyVal) (v : Row) :
    List (PyVal × List Row) :=
  match acc with
  | [] => [(k, [v])]
  | (k1, vs) :: t =>
    if k1 = k then (k1, vs ++ [v]) :: t else (k1, vs) :: groupInsert t k v

/-- `ManyToManyRelationship._get_source_links` (amodels.py:683-686) for a
list of source keys: join rows whose source column is in the list, in
retrieval order. -/
def m2mGetSourceLinks (joinM : ModelT) (joinTbl : List Row) (sf : String)
    (sources : List PyVal) : List Row :=
  modelGetList joinM joinTbl (Option.some (SqlPred.inList sf sources))
    Option.none

/-- `[i[self.target_field] for i in links]` (amodels.py:690). -/
def m2mTargetIds (tf : String) : List Row → Except ModelError (List PyVal)
  | [] => .ok []
  | l :: t =>
    match rowItem l tf, m2mTargetIds tf t with
    | .ok v, .ok vs => .ok (v :: vs)
    | .error e, _ => .error e
    | _, .error e => .error e

/-- `{i[pk_name]: i for i in targets}` (amodels.py:695): left-to-right
with overwrite. -/
def targetsDictAux (pk : String) (acc : List (PyVal × Row)) :
    List Row → Except ModelError (List (PyVal × Row))
  | [] => .ok acc
  | r :: t =>
    match rowItem r pk with
    | .ok k => targetsDictAux pk (pydset acc k r) t
    | .error e => .error e

/-- The result-building loop of `get_for_list` (amodels.py:707-711). -/
def groupLinks (sf tf : String) (tdict : List (PyVal × Row))
    (acc : List (PyVal × List Row)) :
    List Row → Except ModelError (List (PyVal × List Row))
  | [] => .ok acc
  | l :: t =>
    match rowItem l sf, rowItem l tf with
    | .ok sk, .ok tk =>
      match pydget tdict tk with
      | Option.some tv => groupLinks sf tf tdict (groupInsert acc sk tv) t
      | Option.none => .error (.keyError "target key missing")
    | .error e, _ => .error e
    | _, .error e => .error e

/-- `ManyToManyRelationship.get_for_list` (amodels.py:703-712): fetch the
join rows for the source keys, fetch the targets and key them by primary
key, then re-walk the join rows appending each link's target to its
source key's list. -/
def m2mGetForList (joinM targetM : ModelT) (joinTbl targetTbl : List Row)
    (sf tf : String) (sources : List PyVal) :
    Except ModelError (List (PyVal × List Row)) :=
  let links := m2mGetSourceLinks joinM joinTbl sf sources
  match m2mTargetIds tf links with
  | .error e => .error e
  | .ok ids =>
    match targetsDictAux targetM.primary_key []
        (modelGetList targetM targetTbl
          (Option.some (SqlPred.inList targetM.primary_key ids))
          Option.none) with
    | .error e => .error e
    | .ok tdict => groupLinks sf tf tdict [] links

/-- The source key of one join row, `i[self.source_field]`. -/
def linkKey (sf : String) (l : Row) : PyVal := (aget l sf).getD PyVal.none

/-- The target record one join row contributes, `targets[i[target_field]]`. -/
def linkVal (tf : String) (tdict : List (PyVal × Row)) (l : Row) : Row :=
  (pydget tdict ((aget l tf).getD PyVal.none)).getD []

/-- One iteration of the result-building loop as a pure step. -/
def groupStep (sf tf : String) (tdict : List (PyVal × Row))
    (acc : List (PyVal × List Row)) (l : Row) : List (PyVal × List Row) :=
  groupInsert acc (linkKey sf l) (linkVal tf tdict l)

theorem groupLinks_ok (sf tf : String) (tdict : List (PyVal × Row))
    (links : List Row) :
    ∀ acc, (∀ l ∈ links, (aget l sf).isSome = true ∧
        (aget l tf).isSome = true ∧
        (pydget tdict ((aget l tf).getD PyVal.none)).isSome = true) →
      groupLinks sf tf tdict acc links
        = Except.ok (links.foldl (groupStep sf tf tdict) acc) := by
  induction links with
  | nil => intro acc _; rfl
  | cons l t ih =>
    intro acc h
    obtain ⟨h1, h2, h3⟩ := h l (List.mem_cons_self l t)
    obtain ⟨sk, hsk⟩ := Option.isSome_iff_exists.mp h1
    obtain ⟨tk, htk⟩ := Option.isSome_iff_exists.mp h2
    rw [htk] at h3
    simp only [Option.getD_some] at h3
    obtain ⟨tv, htv⟩ := Option.isSome_iff_exists.mp h3
    have hstep : groupStep sf tf tdict acc l = groupInsert acc sk tv := by
      simp [groupStep, linkKey, linkVal, hsk, htk, htv]
    simp only [groupLinks, rowItem, hsk, htk, htv, List.foldl_cons, hstep]
    exact ih (groupInsert acc sk tv) (fun x hx => h x (List.mem_cons_of_mem l hx))

theorem glookup_groupInsert_self (acc : List (PyVal × List Row)) (k : PyVal)
    (v : Row) :
    glookup (groupInsert acc k v) k
      = Option.some ((glookup acc k).getD [] ++ [v]) := by
  induction acc with
  | nil => simp [groupInsert, glookup]
  | cons hd t ih =>
    obtain ⟨k1, vs⟩ := hd
    by_cases hk : k1 = k
    · subst hk
      simp [groupInsert, glookup]
    · simp [groupInsert, glookup, hk, ih]

theorem glookup_groupInsert_ne (acc : List (PyVal × List Row)) (k k2 : PyVal)
    (v : Row) (h : ¬ k = k2) :
    glookup (groupInsert acc k v) k2 = glookup acc k2 := by
  induction acc with
  | nil => simp [groupInsert, glookup, h]
  | cons hd t ih =>
    obtain ⟨k1, vs⟩ := hd
    by_cases hk : k1 = k
    · subst hk
      simp [groupInsert, glookup, h]
    · simp [groupInsert, glookup, hk, ih]

theorem glookup_foldl (sf tf : String) (tdict : List (PyVal × Row))
    (links : List Row) :
    ∀ acc k,
      glookup (links.foldl (groupStep sf tf tdict) acc) k
        = match glookup acc k with
          | Option.some vs =>
            Option.some (vs ++ (links.filter
              (fun l => linkKey sf l == k)).map (linkVal tf tdict))
          | Option.none =>
            if (links.filter (fun l => linkKey sf l == k)) = [] then
              Option.none
            else
              Option.some ((links.filter
                (fun l => linkKey sf l == k)).map (linkVal tf tdict)) := by
  induction links with
  | nil =>
    intro acc k
    cases h : glookup acc k <;> simp [h]
  | cons l t ih =>
    intro acc k
    rw [List.foldl_cons]
    by_cases hk : linkKey sf l = k
    · have hb : (linkKey sf l == k) = true := by simp [hk]
      rw [ih (groupStep sf tf tdict acc l) k]
      have hacc : glookup (groupStep sf tf tdict acc l) k
          = Option.some ((glookup acc k).getD [] ++ [linkVal tf tdict l]) := by
        rw [groupStep, hk, glookup_groupInsert_self]
      rw [hacc]
      simp only [List.filter_cons, hb, if_true, List.map_cons]
      cases h : glookup acc k <;> simp [h]
    · have hb : (linkKey sf l == k) = false := by simp [hk]
      rw [ih (groupStep sf tf tdict acc l) k]
      have hacc : glookup (groupStep sf tf tdict acc l) k = glookup acc k := by
        rw [groupStep]
        exact glookup_groupInsert_ne acc (linkKey sf l) k (linkVal tf tdict l) hk
      rw [hacc]
      simp only [List.filter_cons, hb]
      simp

/-- C4: under the hypotheses that every matched join row carries the
source and target columns and that every link's target key resolves in
the fetched target dict (referential integrity), `get_for_list` succeeds
and returns the grouping of the links: a source key is present in the
mapping exactly when at least one matching join row carries it (keys with
no join rows are absent, not mapped to `[]`), and a present key maps to
one target record per matching join row, in join-row retrieval order,
duplicates preserved. -/
theorem get_for_list_spec (joinM targetM : ModelT)
    (joinTbl targetTbl : List Row) (sf tf : String) (sources : List PyVal)
    (ids : List PyVal) (tdict : List (PyVal × Row))
    (hids : m2mTargetIds tf (m2mGetSourceLinks joinM joinTbl sf sources)
      = Except.ok ids)
    (htd : targetsDictAux targetM.primary_key []
        (modelGetList targetM targetTbl
          (Option.some (SqlPred.inList targetM.primary_key ids)) Option.none)
      = Except.ok tdict)
    (hsome : ∀ l ∈ m2mGetSourceLinks joinM joinTbl sf sources,
      (aget l sf).isSome = true ∧ (aget l tf).isSome = true ∧
      (pydget tdict ((aget l tf).getD PyVal.none)).isSome = true) :
    m2mGetForList joinM targetM joinTbl targetTbl sf tf sources
      = Except.ok ((m2mGetSourceLinks joinM joinTbl sf sources).foldl
          (groupStep sf tf tdict) []) ∧
    (∀ k, glookup ((m2mGetSourceLinks joinM joinTbl sf sources).foldl
          (groupStep sf tf tdict) []) k
        = (if ((m2mGetSourceLinks joinM joinTbl sf sources).filter
              (fun l => linkKey sf l == k)) = [] then Option.none
           else Option.some (((m2mGetSourceLinks joinM joinTbl sf sources).filter
              (fun l => linkKey sf l == k)).map (linkVal tf tdict)))) ∧
    (∀ k, glookup ((m2mGetSourceLinks joinM joinTbl sf sources).foldl
          (groupStep sf tf tdict) []) k ≠ Option.none
        ↔ ∃ l ∈ m2mGetSourceLinks joinM joinTbl sf sources,
            aget l sf = Option.some k) := by
  have hfold : ∀ k,
      glookup ((m2mGetSourceLinks joinM joinTbl sf sources).foldl
          (groupStep sf tf tdict) []) k
        = (if ((m2mGetSourceLinks joinM joinTbl sf sources).filter
              (fun l => linkKey sf l == k)) = [] then Option.none
           else Option.some (((m2mGetSourceLinks joinM joinTbl sf sources).filter
              (fun l => linkKey sf l == k)).map (linkVal tf tdict))) := by
    intro k
    rw [glookup_foldl]
    rfl
  refine ⟨?_, hfold, ?_⟩
  · simp only [m2mGetForList, hids, htd]
    exact groupLinks_ok sf tf tdict _ [] hsome
  · intro k
    rw [hfold k]
    by_cases hf : ((m2mGetSourceLinks joinM joinTbl sf sources).filter
        (fun l => linkKey sf l == k)) = []
    · rw [if_pos hf]
      constructor
      · intro hne
        exact absurd rfl hne
      · rintro ⟨l, hl, hget⟩
        exfalso
        have hmem : l ∈ (m2mGetSourceLinks joinM joinTbl sf sources).filter
            (fun x => linkKey sf x == k) :=
          List.mem_filter.mpr ⟨hl, by simp [linkKey, hget]⟩
        rw [hf] at hmem
        cases hmem
    · rw [if_neg hf]
      constructor
      · intro _
        obtain ⟨l, hl⟩ := List.exists_mem_of_ne_nil _ hf
        obtain ⟨hl1, hl2⟩ := List.mem_filter.mp hl
        obtain ⟨h1, _, _⟩ := hsome l hl1
        obtain ⟨sk, hsk⟩ := Option.isSome_iff_exists.mp h1
        refine ⟨l, hl1, ?_⟩
        have hkk : linkKey sf l = k := by simpa using hl2
        rw [linkKey, hsk, Option.getD_some] at hkk
        rw [hsk, hkk]
      · intro _
        simp

/-- Join-table record type for the `get_for_list` witness. -/
def c4JoinM : ModelT := ⟨"user_group", ["src", "tgt"], "id", [], [], [], [], Option.none⟩

/-- Target record type for the `get_for_list` witness. -/
def c4TargetM : ModelT := ⟨"grp", ["id"], "id", [], [], [], [], Option.none⟩

/-- Two identical join rows for source key 1, none for source key 2. -/
def c4JoinTbl : List Row :=
  [[("src", PyVal.int 1), ("tgt", PyVal.int 10)],
   [("src", PyVal.int 1), ("tgt", PyVal.int 10)]]

/-- A single target row with primary key 10. -/
def c4TargetTbl : List Row := [[("id", PyVal.int 10)]]

/-- The target dict `{10: target_row}` the run builds. -/
def c4Tdict : List (PyVal × Row) := [(PyVal.int 10, [("id", PyVal.int 10)])]

theorem get_for_list_spec_witness :
    (m2mGetForList c4JoinM c4TargetM c4JoinTbl c4TargetTbl "src" "tgt"
        [PyVal.int 1, PyVal.int 2]
      = Except.ok ((m2mGetSourceLinks c4JoinM c4JoinTbl "src"
          [PyVal.int 1, PyVal.int 2]).foldl
            (groupStep "src" "tgt" c4Tdict) []) ∧
    (∀ k, glookup ((m2mGetSourceLinks c4JoinM c4JoinTbl "src"
          [PyVal.int 1, PyVal.int 2]).foldl
            (groupStep "src" "tgt" c4Tdict) []) k
        = (if ((m2mGetSourceLinks c4JoinM c4JoinTbl "src"
              [PyVal.int 1, PyVal.int 2]).filter
              (fun l => linkKey "src" l == k)) = [] then Option.none
           else Option.some (((m2mGetSourceLinks c4JoinM c4JoinTbl "src"
              [PyVal.int 1, PyVal.int 2]).filter
              (fun l => linkKey "src" l == k)).map
                (linkVal "tgt" c4Tdict)))) ∧
    (∀ k, glookup ((m2mGetSourceLinks c4JoinM c4JoinTbl "src"
          [PyVal.int 1, PyVal.int 2]).foldl
            (groupStep "src" "tgt" c4Tdict) []) k ≠ Option.none
        ↔ ∃ l ∈ m2mGetSourceLinks c4JoinM c4JoinTbl "src"
            [PyVal.int 1, PyVal.int 2], aget l "src" = Option.some k)) ∧
    m2mGetForList c4JoinM c4TargetM c4JoinTbl c4TargetTbl "src" "tgt"
        [PyVal.int 1, PyVal.int 2]
      = Except.ok [(PyVal.int 1,
          [[("id", PyVal.int 10)], [("id", PyVal.int 10)]])] :=
  ⟨get_for_list_spec c4JoinM c4TargetM c4JoinTbl c4TargetTbl "src" "tgt"
      [PyVal.int 1, PyVal.int 2] [PyVal.int 10, PyVal.int 10] c4Tdict
      (by decide) (by decide) (by decide),
   by decide⟩
